import Mathlib

/-!
Shallow embedding of the windowed chunk store from
`all_rag_techniques/context_enrichment_window_around_chunk.ipynb`:
`split_text_to_chunks_with_indices`, `get_chunk_by_index` and
`retrieve_with_context_overlap`, together with proofs about them.

Strings are `List Char`; Python integers are `Int`; Python slicing
`s[a:b]` is `pySlice` (negative indices wrap, bounds clamp); the
unbounded `while` loop of the splitter is given an explicit fuel
parameter, `none` meaning the loop did not finish within the fuel.
-/

namespace RagChunks

/-- A LangChain `Document` as built by the notebook: `page_content` is the
chunk's own slice, the metadata dictionary holds `index` (the position of
the chunk, `len(chunks)` at append time) and `text` (the full source). -/
structure Document where
  page_content : List Char
  index : Nat
  metaText : List Char
deriving DecidableEq

/-- One slice bound of Python `s[a:b]`: a negative index counts from the
end (clamped below at 0), a non-negative one is clamped above at `n`. -/
def pyBound (n : Nat) (i : Int) : Nat :=
  if i < 0 then ((n : Int) + i).toNat else min i.toNat n

/-- Python slicing `s[a:b]` (step 1). -/
def pySlice (l : List Char) (a b : Int) : List Char :=
  (l.take (pyBound l.length b)).drop (pyBound l.length a)

/-- The body of the splitter's `while start < len(text)` loop, with fuel.
Each iteration appends `text[start:start+chunk_size]` tagged with index
`len(chunks)` and advances `start` by `chunk_size - chunk_overlap`. -/
def splitAux (text : List Char) (chunk_size chunk_overlap : Int) :
    Nat → Int → List Document → Option (List Document)
  | 0, _, _ => none
  | fuel + 1, start, chunks =>
    if start < (text.length : Int) then
      splitAux text chunk_size chunk_overlap fuel
        (start + (chunk_size - chunk_overlap))
        (chunks ++ [⟨pySlice text start (start + chunk_size), chunks.length, text⟩])
    else
      some chunks

/-- `split_text_to_chunks_with_indices(text, chunk_size, chunk_overlap)`,
run with the given fuel. -/
def split_text_to_chunks_with_indices (text : List Char)
    (chunk_size chunk_overlap : Int) (fuel : Nat) : Option (List Document) :=
  splitAux text chunk_size chunk_overlap fuel 0 []

/-- The canonical run of the splitter: fuel `length + 1` is enough for
every configuration whose step `chunk_size - chunk_overlap` is positive. -/
def splitChunks (text : List Char) (chunk_size chunk_overlap : Int) :
    Option (List Document) :=
  split_text_to_chunks_with_indices text chunk_size chunk_overlap (text.length + 1)

/-- The chunk the splitter builds at position `j`:
`text[j*step : j*step + size]` tagged with index `j`. -/
def chunkAt (text : List Char) (size step j : Nat) : Document :=
  ⟨(text.drop (j * step)).take size, j, text⟩

/-- Structural characterisation of the splitter's loop for a positive
step, counted by chunk position `i` instead of character offset. -/
def buildChunks (text : List Char) (size step : Nat) : Nat → Nat → List Document
  | 0, _ => []
  | fuel + 1, i =>
    if i * step < text.length then
      chunkAt text size step i :: buildChunks text size step fuel (i + 1)
    else []

/-- `get_chunk_by_index(vectorstore, target_index)`: scan the store's
documents and return the first whose metadata index equals the target,
`none` when there is none. -/
def get_chunk_by_index (vectorstore : List Document) (target_index : Int) :
    Option Document :=
  vectorstore.find? (fun doc => (doc.index : Int) == target_index)

/-- Python `range(a, b)` over integers. -/
def intRange (a b : Int) : List Int :=
  (List.range (b - a).toNat).map (fun (k : Nat) => a + (k : Int))

/-- One step of a stable insertion sort on the chunk index (the model of
`neighbor_chunks.sort(key=lambda x: x.metadata.get('index', 0))`). -/
def insertDoc (d : Document) : List Document → List Document
  | [] => [d]
  | e :: es => if d.index ≤ e.index then d :: e :: es else e :: insertDoc d es

/-- Stable sort of documents by their chunk index. -/
def sortByIndex (l : List Document) : List Document :=
  l.foldr insertDoc []

/-- The body of `retrieve_with_context_overlap`'s per-match loop: gather
indices `[max(0, center - num_neighbors), center + num_neighbors]`,
drop the missing ones, sort by index, then concatenate, trimming the
accumulated string to `max(0, len - chunk_overlap)` before each append.
The `none` case is the `IndexError` of `neighbor_chunks[0]` on an empty
gather. -/
def window_for_index (vectorstore : List Document)
    (current_index num_neighbors chunk_overlap : Int) : Option (List Char) :=
  let start_index := max 0 (current_index - num_neighbors)
  let end_index := current_index + num_neighbors + 1
  let neighbor_chunks := (intRange start_index end_index).filterMap
    (get_chunk_by_index vectorstore)
  match sortByIndex neighbor_chunks with
  | [] => none
  | c :: rest =>
    some (rest.foldl
      (fun acc cur =>
        acc.take ((acc.length : Int) - chunk_overlap).toNat ++ cur.page_content)
      c.page_content)

/-- `retrieve_with_context_overlap(vectorstore, retriever, query, ...)`
with the retriever's output `relevant_chunks` passed in as data (the
retriever is an external collaborator); every document of the model
carries an index, so the `current_index is None` guard never fires.
`chunk_size` is accepted, as in the source, but unused by the body. -/
def retrieve_with_context_overlap (vectorstore relevant_chunks : List Document)
    (num_neighbors chunk_size chunk_overlap : Int) : Option (List (List Char)) :=
  let _ := chunk_size
  relevant_chunks.mapM
    (fun chunk => window_for_index vectorstore (chunk.index : Int)
      num_neighbors chunk_overlap)

/-- Concatenation of a chunk list with the first `chunk_overlap`
characters removed from every chunk except the first. -/
def stitchAll (chunk_overlap : Nat) : List Document → List Char
  | [] => []
  | c :: rest =>
    c.page_content ++ (rest.map (fun d => d.page_content.drop chunk_overlap)).flatten

/-- A six-character sample source text used to instantiate theorems. -/
def sampleText : List Char := ['a', 'b', 'c', 'd', 'e', 'f']

/-- The store the splitter builds from `sampleText` with
`chunk_size = 4, chunk_overlap = 2`. -/
def sampleStore : List Document :=
  [⟨['a', 'b', 'c', 'd'], 0, sampleText⟩,
   ⟨['c', 'd', 'e', 'f'], 1, sampleText⟩,
   ⟨['e', 'f'], 2, sampleText⟩]

/-! ### Basic slice lemmas -/

lemma pySlice_natCast (l : List Char) (a s : Nat) :
    pySlice l (a : Int) ((a : Int) + (s : Int)) = (l.drop a).take s := by
  unfold pySlice pyBound
  have h1 : ¬ ((a : Int) < 0) := by omega
  have h2 : ¬ ((a : Int) + (s : Int) < 0) := by omega
  rw [if_neg h2, if_neg h1]
  have h3 : ((a : Int) + (s : Int)).toNat = a + s := by omega
  have h4 : ((a : Int)).toNat = a := by omega
  rw [h3, h4, List.drop_take]
  rcases le_or_lt a l.length with hle | hlt
  · rw [min_eq_left hle]
    rw [List.take_eq_take]
    simp only [List.length_drop]
    omega
  · rw [min_eq_right hlt.le, List.drop_length, List.drop_eq_nil_of_le hlt.le]
    simp

/-! ### Bridging the fueled loop to the structural characterisation -/

lemma splitAux_bridge (text : List Char) (size overlap : Nat) (h : overlap < size) :
    ∀ (fuel i : Nat) (acc : List Document), acc.length = i → 0 < fuel →
      (text.length : Int) < (fuel : Int) + ((i * (size - overlap) : Nat) : Int) →
      splitAux text (size : Int) (overlap : Int) fuel ((i * (size - overlap) : Nat) : Int) acc
        = some (acc ++ buildChunks text size (size - overlap) fuel i) := by
  intro fuel
  induction fuel with
  | zero => intro i acc _ h0 _; exact absurd h0 (lt_irrefl 0)
  | succ fuel ih =>
    intro i acc hacc _ hfuel
    simp only [splitAux, buildChunks]
    have hmul : (i + 1) * (size - overlap) = i * (size - overlap) + (size - overlap) := by
      ring
    by_cases hc : i * (size - overlap) < text.length
    · rw [if_pos (by exact_mod_cast hc), if_pos hc]
      have harg : ((i * (size - overlap) : Nat) : Int) + ((size : Int) - (overlap : Int))
          = (((i + 1) * (size - overlap) : Nat) : Int) := by
        rw [hmul]
        push_cast [Nat.cast_sub h.le]
        ring
      rw [pySlice_natCast text (i * (size - overlap)) size, hacc, harg]
      have hrec := ih (i + 1)
        (acc ++ [⟨(text.drop (i * (size - overlap))).take size, i, text⟩])
        (by simp [hacc]) (by omega) (by rw [hmul]; omega)
      rw [hrec]
      simp [chunkAt]
    · rw [if_neg (by exact_mod_cast hc), if_neg hc]
      simp

lemma buildChunks_congr (text : List Char) (size step : Nat) (hstep : 0 < step) :
    ∀ (f₁ f₂ i : Nat), text.length ≤ i * step + f₁ → text.length ≤ i * step + f₂ →
      buildChunks text size step f₁ i = buildChunks text size step f₂ i := by
  intro f₁
  induction f₁ with
  | zero =>
    intro f₂ i h1 h2
    have hc : ¬ i * step < text.length := by omega
    cases f₂ with
    | zero => rfl
    | succ f₂ => simp [buildChunks, hc]
  | succ f ih =>
    intro f₂ i h1 h2
    cases f₂ with
    | zero =>
      have hc : ¬ i * step < text.length := by omega
      simp [buildChunks, hc]
    | succ f₂ =>
      simp only [buildChunks]
      have hmul : (i + 1) * step = i * step + step := by ring
      by_cases hc : i * step < text.length
      · rw [if_pos hc, if_pos hc]
        rw [ih f₂ (i + 1) (by omega) (by omega)]
      · rw [if_neg hc, if_neg hc]

lemma splitChunks_eq (text : List Char) (size overlap : Nat) (h : overlap < size) :
    splitChunks text (size : Int) (overlap : Int)
      = some (buildChunks text size (size - overlap) (text.length + 1) 0) := by
  unfold splitChunks split_text_to_chunks_with_indices
  have hb := splitAux_bridge text size overlap h (text.length + 1) 0 [] rfl (by omega)
    (by push_cast; omega)
  simpa using hb

lemma split_fuel_eq (text : List Char) (size overlap : Nat) (h : overlap < size)
    (fuel : Nat) (hf : text.length + 1 ≤ fuel) :
    split_text_to_chunks_with_indices text (size : Int) (overlap : Int) fuel
      = splitChunks text (size : Int) (overlap : Int) := by
  have hb := splitAux_bridge text size overlap h fuel 0 [] rfl (by omega)
    (by push_cast; omega)
  rw [splitChunks_eq text size overlap h]
  unfold split_text_to_chunks_with_indices
  simp only [Nat.zero_mul, Nat.cast_zero, List.nil_append] at hb
  rw [hb]
  exact congrArg some
    (buildChunks_congr text size (size - overlap) (by omega) fuel (text.length + 1) 0
      (by omega) (by omega))

/-! ### Structural facts about the chunk list -/

@[simp] lemma chunkAt_index (text : List Char) (size step j : Nat) :
    (chunkAt text size step j).index = j := rfl

@[simp] lemma chunkAt_page (text : List Char) (size step j : Nat) :
    (chunkAt text size step j).page_content = (text.drop (j * step)).take size := rfl

@[simp] lemma chunkAt_meta (text : List Char) (size step j : Nat) :
    (chunkAt text size step j).metaText = text := rfl

lemma buildChunks_eq_map (text : List Char) (size step : Nat) :
    ∀ (fuel i : Nat), buildChunks text size step fuel i
      = (List.range' i (buildChunks text size step fuel i).length).map
          (chunkAt text size step) := by
  intro fuel
  induction fuel with
  | zero => intro i; simp [buildChunks]
  | succ fuel ih =>
    intro i
    by_cases hc : i * step < text.length
    · simp only [buildChunks, if_pos hc, List.length_cons]
      rw [List.range'_succ, List.map_cons]
      congr 1
      exact ih (i + 1)
    · simp [buildChunks, hc]

lemma buildChunks_length_iff (text : List Char) (size step : Nat) (hstep : 0 < step) :
    ∀ (fuel i k : Nat), text.length ≤ i * step + fuel →
      (k < (buildChunks text size step fuel i).length ↔ (i + k) * step < text.length) := by
  intro fuel
  induction fuel with
  | zero =>
    intro i k h
    have hk : i * step ≤ (i + k) * step :=
      Nat.mul_le_mul (Nat.le_add_right i k) (le_refl step)
    simp only [buildChunks, List.length_nil]
    omega
  | succ fuel ih =>
    intro i k h
    have hmul : (i + 1) * step = i * step + step := by ring
    by_cases hc : i * step < text.length
    · simp only [buildChunks, if_pos hc]
      cases k with
      | zero => simpa using hc
      | succ k =>
        simp only [List.length_cons, Nat.succ_lt_succ_iff]
        rw [ih (i + 1) k (by omega)]
        rw [show i + 1 + k = i + (k + 1) from by omega]
    · simp only [buildChunks, if_neg hc, List.length_nil]
      have hk : i * step ≤ (i + k) * step :=
        Nat.mul_le_mul (Nat.le_add_right i k) (le_refl step)
      omega

lemma find_index_range (text : List Char) (size step : Nat) (j : Int) :
    ∀ (m a : Nat),
      ((List.range' a m).map (chunkAt text size step)).find?
          (fun d => ((d.index : Int) == j))
        = if (a : Int) ≤ j ∧ j < (a : Int) + (m : Int)
          then some (chunkAt text size step j.toNat) else none := by
  intro m
  induction m with
  | zero =>
    intro a
    have hcond : ¬ ((a : Int) ≤ j ∧ j < (a : Int)) := by omega
    simp [hcond]
  | succ m ih =>
    intro a
    rw [List.range'_succ, List.map_cons]
    by_cases hj : (a : Int) = j
    · rw [List.find?_cons_of_pos _ (by simp [hj])]
      have hcond : (a : Int) ≤ j ∧ j < (a : Int) + ((m + 1 : Nat) : Int) := by
        push_cast; omega
      rw [if_pos hcond]
      congr 1
      have : j.toNat = a := by omega
      rw [this]
    · rw [List.find?_cons_of_neg _ (by simp [hj])]
      rw [ih (a + 1)]
      have hcond : ((a + 1 : Nat) : Int) ≤ j ∧ j < ((a + 1 : Nat) : Int) + (m : Int) ↔
          (a : Int) ≤ j ∧ j < (a : Int) + ((m + 1 : Nat) : Int) := by
        push_cast; omega
      exact if_congr hcond rfl rfl

lemma stitch_tail (text : List Char) (size overlap : Nat) (h : overlap < size) :
    ∀ (fuel i : Nat), text.length ≤ i * (size - overlap) + fuel →
      ((buildChunks text size (size - overlap) fuel i).map
          (fun d => d.page_content.drop overlap)).flatten
        = text.drop (i * (size - overlap) + overlap) := by
  intro fuel
  induction fuel with
  | zero =>
    intro i hle
    simp only [buildChunks, List.map_nil, List.flatten_nil]
    symm
    exact List.drop_eq_nil_of_le (by omega)
  | succ fuel ih =>
    intro i hle
    have hmul : (i + 1) * (size - overlap) = i * (size - overlap) + (size - overlap) := by
      ring
    by_cases hc : i * (size - overlap) < text.length
    · simp only [buildChunks, if_pos hc, List.map_cons, List.flatten_cons, chunkAt_page]
      rw [ih (i + 1) (by omega)]
      have e1 : ((text.drop (i * (size - overlap))).take size).drop overlap
          = ((text.drop (i * (size - overlap))).drop overlap).take (size - overlap) :=
        List.drop_take ..
      have e2 : (text.drop (i * (size - overlap))).drop overlap
          = text.drop (i * (size - overlap) + overlap) := List.drop_drop ..
      have e3 : text.drop ((i + 1) * (size - overlap) + overlap)
          = (text.drop (i * (size - overlap) + overlap)).drop (size - overlap) := by
        rw [List.drop_drop]
        congr 1
        omega
      rw [e1, e2, e3, List.take_append_drop]
    · simp only [buildChunks, if_neg hc, List.map_nil, List.flatten_nil]
      symm
      exact List.drop_eq_nil_of_le (by omega)

/-! ### Indexed lookup on the canonical store -/

lemma get_chunk_buildChunks (text : List Char) (size step fuel : Nat) (j : Int) :
    get_chunk_by_index (buildChunks text size step fuel 0) j
      = if 0 ≤ j ∧ j < ((buildChunks text size step fuel 0).length : Int)
        then some (chunkAt text size step j.toNat) else none := by
  unfold get_chunk_by_index
  conv_lhs => rw [buildChunks_eq_map text size step fuel 0]
  rw [find_index_range]
  exact if_congr (by omega) rfl rfl

/-! ### The sort of the gathered neighbors is the identity -/

lemma sortByIndex_cons (d : Document) (l : List Document) :
    sortByIndex (d :: l) = insertDoc d (sortByIndex l) := rfl

lemma insertDoc_le (d e : Document) (es : List Document) (h : d.index ≤ e.index) :
    insertDoc d (e :: es) = d :: e :: es := by
  simp [insertDoc, h]

lemma sortByIndex_map_range (text : List Char) (size step : Nat) :
    ∀ (m a : Nat),
      sortByIndex ((List.range' a m).map (chunkAt text size step))
        = (List.range' a m).map (chunkAt text size step) := by
  intro m
  induction m with
  | zero => intro a; rfl
  | succ m ih =>
    intro a
    rw [List.range'_succ, List.map_cons, sortByIndex_cons, ih (a + 1)]
    cases m with
    | zero => rfl
    | succ m =>
      rw [List.range'_succ, List.map_cons]
      exact insertDoc_le _ _ _ (by simp)

/-! ### The gathered neighbor window -/

lemma intRange_window (c ν : Nat) :
    intRange (max 0 ((c : Int) - (ν : Int))) ((c : Int) + (ν : Int) + 1)
      = (List.range' (c - ν) (c + ν + 1 - (c - ν))).map (fun (k : Nat) => (k : Int)) := by
  unfold intRange
  have ha : max 0 ((c : Int) - (ν : Int)) = ((c - ν : Nat) : Int) := by omega
  rw [ha]
  have hk : (((c : Int) + (ν : Int) + 1) - ((c - ν : Nat) : Int)).toNat
      = c + ν + 1 - (c - ν) := by omega
  rw [hk, List.range'_eq_map_range, List.map_map]
  refine List.map_congr_left ?_
  intro x _
  simp

lemma filterMap_get_window (text : List Char) (size step fuel : Nat) :
    ∀ (K a : Nat),
      ((List.range' a K).map (fun (k : Nat) => (k : Int))).filterMap
          (get_chunk_by_index (buildChunks text size step fuel 0))
        = (List.range' a (min K ((buildChunks text size step fuel 0).length - a))).map
            (chunkAt text size step) := by
  intro K
  induction K with
  | zero => intro a; simp
  | succ K ih =>
    intro a
    rw [List.range'_succ, List.map_cons]
    by_cases hn : a < (buildChunks text size step fuel 0).length
    · have hsome : get_chunk_by_index (buildChunks text size step fuel 0) ((a : Nat) : Int)
          = some (chunkAt text size step a) := by
        rw [get_chunk_buildChunks, if_pos (by omega)]
        simp
      rw [List.filterMap_cons_some hsome]
      rw [ih (a + 1)]
      rw [show min (K + 1) ((buildChunks text size step fuel 0).length - a)
          = (min K ((buildChunks text size step fuel 0).length - (a + 1))) + 1 from by omega]
      rw [List.range'_succ, List.map_cons]
    · rw [List.filterMap_cons_none
        (by rw [get_chunk_buildChunks]; rw [if_neg (by omega)])]
      rw [ih (a + 1)]
      have h1 : min (K + 1) ((buildChunks text size step fuel 0).length - a) = 0 := by omega
      have h2 : min K ((buildChunks text size step fuel 0).length - (a + 1)) = 0 := by omega
      rw [h1, h2]
      simp

/-! ### The stitching fold over a window of full chunks -/

lemma fold_stitch (text : List Char) (size overlap : Nat) (h : overlap < size) (a : Nat) :
    ∀ (m j : Nat), a ≤ j →
      (∀ x, j ≤ x → x < j + m → x * (size - overlap) + size ≤ text.length) →
      ((List.range' (j + 1) m).map (chunkAt text size (size - overlap))).foldl
          (fun acc cur => acc.take (((acc.length : Nat) : Int) - (overlap : Int)).toNat
            ++ cur.page_content)
          ((text.drop (a * (size - overlap))).take
            (j * (size - overlap) + size - a * (size - overlap)))
        = (text.drop (a * (size - overlap))).take
            ((j + m) * (size - overlap) + size - a * (size - overlap)) := by
  intro m
  induction m with
  | zero => intro j hj _; simp
  | succ m ih =>
    intro j hj hfull
    have hjf : j * (size - overlap) + size ≤ text.length := hfull j le_rfl (by omega)
    have hAj : a * (size - overlap) ≤ j * (size - overlap) :=
      Nat.mul_le_mul hj (le_refl _)
    have hmul : (j + 1) * (size - overlap) = j * (size - overlap) + (size - overlap) := by
      ring
    simp only [List.range'_succ, List.map_cons, List.foldl_cons]
    have hlen : ((text.drop (a * (size - overlap))).take
        (j * (size - overlap) + size - a * (size - overlap))).length
        = j * (size - overlap) + size - a * (size - overlap) := by
      simp only [List.length_take, List.length_drop]
      omega
    rw [hlen]
    have htrim : (((j * (size - overlap) + size - a * (size - overlap) : Nat) : Int)
        - (overlap : Int)).toNat
        = (j + 1) * (size - overlap) - a * (size - overlap) := by
      rw [hmul]; omega
    rw [htrim]
    have hcomb : ((text.drop (a * (size - overlap))).take
          (j * (size - overlap) + size - a * (size - overlap))).take
            ((j + 1) * (size - overlap) - a * (size - overlap))
          ++ (chunkAt text size (size - overlap) (j + 1)).page_content
        = (text.drop (a * (size - overlap))).take
            ((j + 1) * (size - overlap) + size - a * (size - overlap)) := by
      rw [List.take_take, min_eq_left (by rw [hmul]; omega)]
      rw [chunkAt_page]
      rw [show (j + 1) * (size - overlap) + size - a * (size - overlap)
          = ((j + 1) * (size - overlap) - a * (size - overlap)) + size from by
        rw [hmul]; omega]
      rw [List.take_add]
      congr 1
      rw [List.drop_drop]
      have : a * (size - overlap) + ((j + 1) * (size - overlap) - a * (size - overlap))
          = (j + 1) * (size - overlap) := by rw [hmul]; omega
      rw [this]
    rw [hcomb]
    have hrest := ih (j + 1) (by omega) (fun x hx1 hx2 => hfull x (by omega) (by omega))
    rw [hrest, show j + 1 + m = j + (m + 1) from by omega]

/-! ### The context window in normal form -/

lemma window_unfold (text : List Char) (size overlap : Nat) (h : overlap < size)
    (c ν : Nat)
    (hc : c < (buildChunks text size (size - overlap) (text.length + 1) 0).length) :
    window_for_index (buildChunks text size (size - overlap) (text.length + 1) 0)
        (c : Int) (ν : Int) (overlap : Int)
      = some (((List.range' (c - ν + 1)
            (min (c + ν + 1)
                (buildChunks text size (size - overlap) (text.length + 1) 0).length
              - (c - ν) - 1)).map (chunkAt text size (size - overlap))).foldl
          (fun acc cur => acc.take (((acc.length : Nat) : Int) - (overlap : Int)).toNat
            ++ cur.page_content)
          ((text.drop ((c - ν) * (size - overlap))).take size)) := by
  simp only [window_for_index]
  rw [intRange_window c ν]
  rw [filterMap_get_window text size (size - overlap) (text.length + 1)
    (c + ν + 1 - (c - ν)) (c - ν)]
  rw [sortByIndex_map_range]
  rw [show min (c + ν + 1 - (c - ν))
        ((buildChunks text size (size - overlap) (text.length + 1) 0).length - (c - ν))
      = (min (c + ν + 1)
          (buildChunks text size (size - overlap) (text.length + 1) 0).length
          - (c - ν) - 1) + 1 from by omega]
  rw [List.range'_succ, List.map_cons]
  rfl

lemma window_isSome (text : List Char) (size overlap : Nat) (h : overlap < size)
    (c ν : Nat)
    (hc : c < (buildChunks text size (size - overlap) (text.length + 1) 0).length) :
    (window_for_index (buildChunks text size (size - overlap) (text.length + 1) 0)
        (c : Int) (ν : Int) (overlap : Int)).isSome := by
  rw [window_unfold text size overlap h c ν hc]
  rfl

lemma window_eq (text : List Char) (size overlap : Nat) (h : overlap < size)
    (c ν : Nat)
    (hc : c < (buildChunks text size (size - overlap) (text.length + 1) 0).length)
    (hfull : ∀ x, c - ν ≤ x →
      x < min (c + ν)
          ((buildChunks text size (size - overlap) (text.length + 1) 0).length - 1) →
      x * (size - overlap) + size ≤ text.length) :
    window_for_index (buildChunks text size (size - overlap) (text.length + 1) 0)
        (c : Int) (ν : Int) (overlap : Int)
      = some ((text.drop ((c - ν) * (size - overlap))).take
          ((min (c + ν)
              ((buildChunks text size (size - overlap) (text.length + 1) 0).length - 1))
            * (size - overlap) + size - (c - ν) * (size - overlap))) := by
  rw [window_unfold text size overlap h c ν hc]
  have hm : min (c + ν + 1)
        (buildChunks text size (size - overlap) (text.length + 1) 0).length - (c - ν) - 1
      = min (c + ν)
          ((buildChunks text size (size - overlap) (text.length + 1) 0).length - 1)
        - (c - ν) := by omega
  have hb : c - ν
      + (min (c + ν)
          ((buildChunks text size (size - overlap) (text.length + 1) 0).length - 1)
        - (c - ν))
      = min (c + ν)
          ((buildChunks text size (size - overlap) (text.length + 1) 0).length - 1) := by
    omega
  rw [hm]
  have hF := fold_stitch text size overlap h (c - ν)
    (min (c + ν)
        ((buildChunks text size (size - overlap) (text.length + 1) 0).length - 1)
      - (c - ν))
    (c - ν) le_rfl
    (fun x hx1 hx2 => hfull x hx1 (by omega))
  rw [show (c - ν) * (size - overlap) + size - (c - ν) * (size - overlap) = size
    from by omega] at hF
  rw [hF, hb]

/-! ### Remaining structural helpers -/

lemma mem_buildChunks (text : List Char) (size step : Nat) (d : Document) :
    ∀ (fuel i : Nat), d ∈ buildChunks text size step fuel i →
      d = chunkAt text size step d.index ∧ i ≤ d.index ∧ d.index * step < text.length := by
  intro fuel
  induction fuel with
  | zero => intro i hd; simp [buildChunks] at hd
  | succ fuel ih =>
    intro i hd
    by_cases hc : i * step < text.length
    · rw [show buildChunks text size step (fuel + 1) i
          = chunkAt text size step i :: buildChunks text size step fuel (i + 1) from by
        simp [buildChunks, hc]] at hd
      rcases List.mem_cons.mp hd with h1 | h2
      · subst h1
        exact ⟨rfl, le_rfl, by simpa using hc⟩
      · obtain ⟨he, hi, hlt⟩ := ih (i + 1) h2
        exact ⟨he, by omega, hlt⟩
    · simp [buildChunks, hc] at hd

lemma buildChunks_get_zero (text : List Char) (size step : Nat) (fuel k : Nat)
    (hk : k < (buildChunks text size step fuel 0).length) :
    (buildChunks text size step fuel 0).get ⟨k, hk⟩ = chunkAt text size step k := by
  rw [List.get_of_eq (buildChunks_eq_map text size step fuel 0)]
  rw [List.get_map, List.get_range']
  simp

lemma store_map_index (text : List Char) (size step : Nat) (fuel : Nat) :
    (buildChunks text size step fuel 0).map Document.index
      = List.range (buildChunks text size step fuel 0).length := by
  conv_lhs => rw [buildChunks_eq_map text size step fuel 0]
  rw [List.map_map]
  rw [show (Document.index ∘ chunkAt text size step) = id from funext fun j => rfl]
  rw [List.map_id, List.range_eq_range']

lemma mapM_isSome {α β : Type} (f : α → Option β) :
    ∀ (l : List α), (∀ x ∈ l, (f x).isSome) → (l.mapM f).isSome := by
  intro l
  induction l with
  | nil => intro _; rfl
  | cons a l ih =>
    intro hall
    rw [List.mapM_cons]
    obtain ⟨b, hb⟩ := Option.isSome_iff_exists.mp (hall a (by simp))
    obtain ⟨bs, hbs⟩ := Option.isSome_iff_exists.mp (ih fun x hx => hall x (by simp [hx]))
    rw [hb, hbs]
    rfl

lemma stitch_store (text : List Char) (size overlap : Nat) (h : overlap < size) :
    stitchAll overlap (buildChunks text size (size - overlap) (text.length + 1) 0)
      = text := by
  rcases Nat.eq_zero_or_pos text.length with h0 | hpos
  · have htext : text = [] := List.length_eq_zero.mp h0
    subst htext
    simp [buildChunks, stitchAll]
  · rw [show buildChunks text size (size - overlap) (text.length + 1) 0
        = chunkAt text size (size - overlap) 0
          :: buildChunks text size (size - overlap) text.length 1 from by
      simp only [buildChunks]
      rw [if_pos (by simpa using hpos)]]
    simp only [stitchAll]
    rw [stitch_tail text size overlap h text.length 1 (by omega)]
    rw [chunkAt_page]
    simp only [Nat.zero_mul, List.drop_zero]
    rw [show 1 * (size - overlap) + overlap = size from by omega]
    exact List.take_append_drop size text

/-! ### Divergence of the loop when the step is non-positive -/

lemma splitAux_diverge (text : List Char) (cs co : Int) (hco : cs ≤ co) :
    ∀ (fuel : Nat) (start : Int) (acc : List Document),
      start < (text.length : Int) → splitAux text cs co fuel start acc = none := by
  intro fuel
  induction fuel with
  | zero => intro start acc _; rfl
  | succ fuel ih =>
    intro start acc hs
    simp only [splitAux]
    rw [if_pos hs]
    exact ih _ _ (by omega)

lemma split_diverge (text : List Char) (cs co : Int) (hco : cs ≤ co)
    (htext : text ≠ []) (fuel : Nat) :
    split_text_to_chunks_with_indices text cs co fuel = none := by
  have hlen : 0 < text.length := List.length_pos.mpr htext
  exact splitAux_diverge text cs co hco fuel 0 [] (by exact_mod_cast hlen)

/-! ### From a splitter run back to the structural store -/

lemma store_of_split (text : List Char) (size overlap : Nat) (h : overlap < size)
    (L : List Document) (hL : splitChunks text (size : Int) (overlap : Int) = some L) :
    L = buildChunks text size (size - overlap) (text.length + 1) 0 := by
  have hbc := splitChunks_eq text size overlap h
  rw [hL] at hbc
  exact Option.some.inj hbc

/-! ## Claims -/

/-- C1 (amended): the splitter performs no configuration validation at all.
With `chunk_overlap ≥ chunk_size` on a nonempty text its `while` loop never
finishes — no fuel bound suffices — rather than failing with an
`InvalidConfiguration` error; and an invalid configuration whose step
`chunk_size - chunk_overlap` is positive simply produces chunks. -/
theorem C1_no_validation_diverges (text : List Char) (chunk_size chunk_overlap : Int)
    (hco : chunk_size ≤ chunk_overlap) (htext : text ≠ []) (fuel : Nat) :
    split_text_to_chunks_with_indices text chunk_size chunk_overlap fuel = none :=
  split_diverge text chunk_size chunk_overlap hco htext fuel

theorem C1_no_validation_diverges_witness :
    ((1 : Int) ≤ 1 ∧ (['a'] : List Char) ≠ [])
      ∧ split_text_to_chunks_with_indices ['a'] 1 1 5 = none :=
  ⟨⟨by decide, by decide⟩, C1_no_validation_diverges ['a'] 1 1 (by decide) (by decide) 5⟩

/-- C1 counterexample: calling the splitter with the invalid configuration
`chunk_size = 1, chunk_overlap = -1` does not fail: it terminates and
produces a non-empty chunk list, so no `InvalidConfiguration` is signalled. -/
theorem C1_counterexample :
    splitChunks ['a', 'b'] 1 (-1) = some [⟨['a'], 0, ['a', 'b']⟩]
      ∧ ([⟨['a'], 0, ['a', 'b']⟩] : List Document) ≠ [] := by
  decide

/-- C2: for every valid configuration `chunk_overlap < chunk_size`, the
`i`-th chunk of the splitter's output has text
`source_text[i*(chunk_size-chunk_overlap) : i*(chunk_size-chunk_overlap)+chunk_size]`
(a Python slice, so the final chunk may be shorter than `chunk_size`). -/
theorem C2_chunk_text_is_slice (text : List Char) (size overlap : Nat)
    (h : overlap < size) (L : List Document)
    (hL : splitChunks text (size : Int) (overlap : Int) = some L)
    (i : Nat) (hi : i < L.length) :
    (L.get ⟨i, hi⟩).page_content
      = pySlice text ((i * (size - overlap) : Nat) : Int)
          (((i * (size - overlap) : Nat) : Int) + (size : Int)) := by
  obtain rfl := store_of_split text size overlap h L hL
  rw [buildChunks_get_zero, pySlice_natCast, chunkAt_page]

theorem C2_chunk_text_is_slice_witness :
    (2 < 4 ∧ splitChunks sampleText 4 2 = some sampleStore ∧ 1 < sampleStore.length)
      ∧ (sampleStore.get ⟨1, by decide⟩).page_content
        = pySlice sampleText ((1 * (4 - 2) : Nat) : Int)
            (((1 * (4 - 2) : Nat) : Int) + (4 : Int)) :=
  ⟨⟨by decide, by decide, by decide⟩,
    C2_chunk_text_is_slice sampleText 4 2 (by decide) sampleStore (by decide) 1 (by decide)⟩

/-- C3: for every valid configuration `chunk_size > chunk_overlap ≥ 0`,
concatenating the splitter's chunks with the first `chunk_overlap`
characters removed from every chunk except the first reproduces the
source text exactly. -/
theorem C3_stitch_roundtrip (text : List Char) (size overlap : Nat)
    (h : overlap < size) (L : List Document)
    (hL : splitChunks text (size : Int) (overlap : Int) = some L) :
    stitchAll overlap L = text := by
  obtain rfl := store_of_split text size overlap h L hL
  exact stitch_store text size overlap h

theorem C3_stitch_roundtrip_witness :
    (2 < 4 ∧ splitChunks sampleText 4 2 = some sampleStore)
      ∧ stitchAll 2 sampleStore = sampleText :=
  ⟨⟨by decide, by decide⟩,
    C3_stitch_roundtrip sampleText 4 2 (by decide) sampleStore (by decide)⟩

/-- C8: for every valid configuration the splitter terminates — fuel
`text.length + 1` completes the loop — and is deterministic: every larger
fuel bound recomputes exactly the same chunk sequence. -/
theorem C8_terminates_deterministic (text : List Char) (size overlap : Nat)
    (h : overlap < size) :
    (splitChunks text (size : Int) (overlap : Int)).isSome
      ∧ ∀ fuel, text.length + 1 ≤ fuel →
          split_text_to_chunks_with_indices text (size : Int) (overlap : Int) fuel
            = splitChunks text (size : Int) (overlap : Int) :=
  ⟨by rw [splitChunks_eq text size overlap h]; rfl,
   fun fuel hf => split_fuel_eq text size overlap h fuel hf⟩

theorem C8_terminates_deterministic_witness :
    2 < 4
      ∧ ((splitChunks sampleText 4 2).isSome
        ∧ ∀ fuel, sampleText.length + 1 ≤ fuel →
            split_text_to_chunks_with_indices sampleText 4 2 fuel
              = splitChunks sampleText 4 2) :=
  ⟨by decide, C8_terminates_deterministic sampleText 4 2 (by decide)⟩

/-- C9: for every valid configuration the chunk indices recorded by the
splitter are exactly `0, 1, ..., n-1` in production order. -/
theorem C9_indices_contiguous (text : List Char) (size overlap : Nat)
    (h : overlap < size) (L : List Document)
    (hL : splitChunks text (size : Int) (overlap : Int) = some L) :
    L.map Document.index = List.range L.length := by
  obtain rfl := store_of_split text size overlap h L hL
  exact store_map_index text size (size - overlap) (text.length + 1)

theorem C9_indices_contiguous_witness :
    (2 < 4 ∧ splitChunks sampleText 4 2 = some sampleStore)
      ∧ sampleStore.map Document.index = List.range sampleStore.length :=
  ⟨⟨by decide, by decide⟩,
    C9_indices_contiguous sampleText 4 2 (by decide) sampleStore (by decide)⟩

/-- C10: for every valid configuration every produced chunk is non-empty
and at most `chunk_size` characters long, and splitting the empty string
produces no chunks at all. -/
theorem C10_chunks_nonempty_bounded (text : List Char) (size overlap : Nat)
    (h : overlap < size) (L : List Document)
    (hL : splitChunks text (size : Int) (overlap : Int) = some L) :
    (∀ d ∈ L, d.page_content ≠ [] ∧ d.page_content.length ≤ size)
      ∧ (text = [] → L = []) := by
  obtain rfl := store_of_split text size overlap h L hL
  constructor
  · intro d hd
    obtain ⟨he, -, hlt⟩ :=
      mem_buildChunks text size (size - overlap) d (text.length + 1) 0 hd
    constructor
    · rw [he, chunkAt_page]
      intro hempty
      have h0 : ((text.drop (d.index * (size - overlap))).take size).length = 0 := by
        rw [hempty]; rfl
      rw [List.length_take, List.length_drop] at h0
      omega
    · rw [he, chunkAt_page, List.length_take]
      omega
  · intro ht
    subst ht
    simp [buildChunks]

theorem C10_chunks_nonempty_bounded_witness :
    (2 < 4 ∧ splitChunks sampleText 4 2 = some sampleStore)
      ∧ ((∀ d ∈ sampleStore, d.page_content ≠ [] ∧ d.page_content.length ≤ 4)
        ∧ (sampleText = [] → sampleStore = [])) :=
  ⟨⟨by decide, by decide⟩,
    C10_chunks_nonempty_bounded sampleText 4 2 (by decide) sampleStore (by decide)⟩

/-- C6: on a store built by the splitter with a valid configuration, the
context-window expander never fails: for every list of matched chunks taken
from the store and every non-negative `num_neighbors` it returns a result
(the window is clipped at document boundaries rather than erroring, and in
particular the first-element access of the gathered neighbor list never
sees an empty list). -/
theorem C6_expander_never_fails (text : List Char) (size overlap : Nat)
    (h : overlap < size) (L : List Document)
    (hL : splitChunks text (size : Int) (overlap : Int) = some L)
    (relevant_chunks : List Document) (hrel : ∀ d ∈ relevant_chunks, d ∈ L)
    (num_neighbors : Nat) (chunk_size : Int) :
    (retrieve_with_context_overlap L relevant_chunks (num_neighbors : Int) chunk_size
        (overlap : Int)).isSome := by
  obtain rfl := store_of_split text size overlap h L hL
  simp only [retrieve_with_context_overlap]
  apply mapM_isSome
  intro d hd
  obtain ⟨-, -, hlt⟩ :=
    mem_buildChunks text size (size - overlap) d (text.length + 1) 0 (hrel d hd)
  have hidx : d.index
      < (buildChunks text size (size - overlap) (text.length + 1) 0).length := by
    rw [buildChunks_length_iff text size (size - overlap) (by omega) (text.length + 1) 0
      d.index (by omega)]
    simpa using hlt
  exact window_isSome text size overlap h d.index num_neighbors hidx

theorem C6_expander_never_fails_witness :
    (2 < 4 ∧ splitChunks sampleText 4 2 = some sampleStore
        ∧ (∀ d ∈ [(⟨['e', 'f'], 2, sampleText⟩ : Document)], d ∈ sampleStore))
      ∧ (retrieve_with_context_overlap sampleStore [⟨['e', 'f'], 2, sampleText⟩]
          3 4 2).isSome :=
  ⟨⟨by decide, by decide, by decide⟩,
    C6_expander_never_fails sampleText 4 2 (by decide) sampleStore (by decide)
      [⟨['e', 'f'], 2, sampleText⟩] (by decide) 3 4⟩

/-- C7: on a store of `n` chunks built by the splitter, indexed lookup
returns the unique chunk whose metadata index equals the target whenever
`0 ≤ target < n`, and returns `none` — not an error — when the target is
negative or beyond the last chunk. -/
theorem C7_indexed_lookup (text : List Char) (size overlap : Nat)
    (h : overlap < size) (L : List Document)
    (hL : splitChunks text (size : Int) (overlap : Int) = some L)
    (target : Int) :
    (0 ≤ target → target < (L.length : Int) →
      ∃ d, get_chunk_by_index L target = some d ∧ (d.index : Int) = target
        ∧ ∀ e ∈ L, (e.index : Int) = target → e = d)
      ∧ ((target < 0 ∨ (L.length : Int) ≤ target) →
        get_chunk_by_index L target = none) := by
  obtain rfl := store_of_split text size overlap h L hL
  constructor
  · intro h0 hlt
    refine ⟨chunkAt text size (size - overlap) target.toNat, ?_, ?_, ?_⟩
    · rw [get_chunk_buildChunks, if_pos ⟨h0, hlt⟩]
    · rw [chunkAt_index]
      exact Int.toNat_of_nonneg h0
    · intro e he het
      obtain ⟨hee, -, -⟩ :=
        mem_buildChunks text size (size - overlap) e (text.length + 1) 0 he
      rw [hee]
      congr 1
      omega
  · intro hout
    rw [get_chunk_buildChunks, if_neg (by omega)]

theorem C7_indexed_lookup_witness :
    (2 < 4 ∧ splitChunks sampleText 4 2 = some sampleStore)
      ∧ ((0 ≤ (1 : Int) → (1 : Int) < (sampleStore.length : Int) →
          ∃ d, get_chunk_by_index sampleStore 1 = some d ∧ (d.index : Int) = 1
            ∧ ∀ e ∈ sampleStore, (e.index : Int) = 1 → e = d)
        ∧ (((1 : Int) < 0 ∨ (sampleStore.length : Int) ≤ 1) →
          get_chunk_by_index sampleStore 1 = none)) :=
  ⟨⟨by decide, by decide⟩,
    C7_indexed_lookup sampleText 4 2 (by decide) sampleStore (by decide) 1⟩

/-- C4 (amended): on a store built by the splitter with a valid
configuration, expanding an in-range matched chunk concatenates the
clipped window in ascending index order, trimming `chunk_overlap`
characters from the accumulated tail before each append; the result equals
the contiguous source slice spanned by the window provided every chunk of
the window except the last has the full `chunk_size` length (when a
non-final window chunk is short, the fixed-size trim cuts into it and the
reconstruction is not the spanned slice). -/
theorem C4_window_reconstructs (text : List Char) (size overlap : Nat)
    (h : overlap < size) (L : List Document)
    (hL : splitChunks text (size : Int) (overlap : Int) = some L)
    (c ν : Nat) (hc : c < L.length)
    (hfull : ∀ x, c - ν ≤ x → x < min (c + ν) (L.length - 1) →
      x * (size - overlap) + size ≤ text.length) :
    retrieve_with_context_overlap L [L.get ⟨c, hc⟩] (ν : Int) (size : Int)
        (overlap : Int)
      = some [(text.drop ((c - ν) * (size - overlap))).take
          (min (c + ν) (L.length - 1) * (size - overlap) + size
            - (c - ν) * (size - overlap))] := by
  obtain rfl := store_of_split text size overlap h L hL
  have hget : (buildChunks text size (size - overlap) (text.length + 1) 0).get ⟨c, hc⟩
      = chunkAt text size (size - overlap) c :=
    buildChunks_get_zero text size (size - overlap) (text.length + 1) c hc
  simp only [retrieve_with_context_overlap, List.mapM_cons, List.mapM_nil]
  rw [hget]
  simp only [chunkAt_index]
  rw [window_eq text size overlap h c ν hc hfull]
  rfl

theorem C4_window_reconstructs_witness :
    ((2 < 4 ∧ splitChunks sampleText 4 2 = some sampleStore ∧ 1 < sampleStore.length)
        ∧ (∀ x, 1 - 1 ≤ x → x < min (1 + 1) (sampleStore.length - 1) →
            x * (4 - 2) + 4 ≤ sampleText.length))
      ∧ retrieve_with_context_overlap sampleStore [⟨['c', 'd', 'e', 'f'], 1, sampleText⟩]
          1 4 2
        = some [['a', 'b', 'c', 'd', 'e', 'f']] :=
  ⟨⟨⟨by decide, by decide, by decide⟩,
      by
        intro x h1 h2
        rw [show sampleStore.length = 3 from rfl] at h2
        rw [show sampleText.length = 6 from rfl]
        omega⟩,
    C4_window_reconstructs sampleText 4 2 (by decide) sampleStore (by decide) 1 1
      (by decide)
      (by
        intro x h1 h2
        rw [show sampleStore.length = 3 from rfl] at h2
        rw [show sampleText.length = 6 from rfl]
        omega)⟩

/-- C4 counterexample: on the 7-character text split with
`chunk_size = 4, chunk_overlap = 2`, expanding the in-range chunk at
index 3 with `num_neighbors = 1` yields `"eg"`, while the contiguous
source slice spanned by the clipped window (chunks 2..3) is `"efg"`: the
expander's fixed trim drops a character when a non-final window chunk is
shorter than `chunk_size`. -/
theorem C4_counterexample :
    (splitChunks ['a', 'b', 'c', 'd', 'e', 'f', 'g'] 4 2).map
        (fun S => retrieve_with_context_overlap S
          [⟨['g'], 3, ['a', 'b', 'c', 'd', 'e', 'f', 'g']⟩] 1 4 2)
      = some (some [['e', 'g']])
    ∧ (['e', 'g'] : List Char)
      ≠ ((['a', 'b', 'c', 'd', 'e', 'f', 'g'] : List Char).drop
            ((3 - 1) * (4 - 2))).take
          (min (3 + 1) (4 - 1) * (4 - 2) + 4 - (3 - 1) * (4 - 2)) := by
  decide

set_option maxRecDepth 40000 in
/-- C5 counterexample: splitting a 1000-character string with
`chunk_size = 400, chunk_overlap = 200` yields 5 chunks (offsets
0, 200, 400, 600 and 800 — the loop also starts a chunk at 800 < 1000),
not the 4 chunks the claim states. -/
theorem C5_counterexample :
    (splitChunks (List.replicate 1000 'a') 400 200).map List.length = some 5
      ∧ (splitChunks (List.replicate 1000 'a') 400 200).map List.length ≠ some 4 := by
  constructor
  · decide
  · decide

/-- C5 (amended): splitting any 1000-character string with
`chunk_size = 400, chunk_overlap = 200` yields exactly 5 chunks with
indices 0–4 at character offsets 0, 200, 400, 600, 800, and expanding the
chunk at index 1 with `num_neighbors = 1` returns exactly characters
0 through 800 of the original string. -/
theorem C5_roundtrip_1000 (t : List Char) (hlen : t.length = 1000) :
    (splitChunks t 400 200).map (List.map Document.index) = some [0, 1, 2, 3, 4]
      ∧ (splitChunks t 400 200).map (List.map Document.page_content)
        = some [t.take 400, (t.drop 200).take 400, (t.drop 400).take 400,
            (t.drop 600).take 400, (t.drop 800).take 400]
      ∧ (splitChunks t 400 200).map
          (fun S => retrieve_with_context_overlap S
            [⟨(t.drop 200).take 400, 1, t⟩] 1 400 200)
        = some (some [t.take 800]) := by
  have h42 : (200 : Nat) < 400 := by omega
  have hbc' := splitChunks_eq t 400 200 h42
  have hbc : splitChunks t 400 200
      = some (buildChunks t 400 (400 - 200) (t.length + 1) 0) := hbc'
  have hn : (buildChunks t 400 (400 - 200) (t.length + 1) 0).length = 5 := by
    have h4 := buildChunks_length_iff t 400 (400 - 200) (by omega) (t.length + 1) 0 4
      (by omega)
    have h5 := buildChunks_length_iff t 400 (400 - 200) (by omega) (t.length + 1) 0 5
      (by omega)
    have h4' : 4 < (buildChunks t 400 (400 - 200) (t.length + 1) 0).length :=
      h4.mpr (by omega)
    have h5' : ¬ 5 < (buildChunks t 400 (400 - 200) (t.length + 1) 0).length := by
      intro hh
      have := h5.mp hh
      omega
    omega
  have hBlist : buildChunks t 400 (400 - 200) (t.length + 1) 0
      = [chunkAt t 400 (400 - 200) 0, chunkAt t 400 (400 - 200) 1,
         chunkAt t 400 (400 - 200) 2, chunkAt t 400 (400 - 200) 3,
         chunkAt t 400 (400 - 200) 4] := by
    conv_lhs => rw [buildChunks_eq_map t 400 (400 - 200) (t.length + 1) 0, hn]
    rfl
  refine ⟨?_, ?_, ?_⟩
  · rw [hbc, hBlist]
    rfl
  · rw [hbc, hBlist]
    rfl
  · rw [hbc]
    rw [Option.map_some']
    congr 1
    have hret : retrieve_with_context_overlap
        (buildChunks t 400 (400 - 200) (t.length + 1) 0)
        [⟨(t.drop 200).take 400, 1, t⟩] 1 400 200 = some [t.take 800] := by
      simp only [retrieve_with_context_overlap, List.mapM_cons, List.mapM_nil]
      rw [show (1 : Int) = ((1 : Nat) : Int) from rfl]
      rw [show (200 : Int) = ((200 : Nat) : Int) from rfl]
      rw [window_eq t 400 200 h42 1 1 (by omega)
        (by
          intro x h1 h2
          rw [hn] at h2
          omega)]
      rw [hn]
      rfl
    rw [hret]

theorem C5_roundtrip_1000_witness :
    (List.replicate 1000 'a').length = 1000
      ∧ ((splitChunks (List.replicate 1000 'a') 400 200).map
            (List.map Document.index) = some [0, 1, 2, 3, 4]
        ∧ (splitChunks (List.replicate 1000 'a') 400 200).map
            (List.map Document.page_content)
          = some [(List.replicate 1000 'a').take 400,
              ((List.replicate 1000 'a').drop 200).take 400,
              ((List.replicate 1000 'a').drop 400).take 400,
              ((List.replicate 1000 'a').drop 600).take 400,
              ((List.replicate 1000 'a').drop 800).take 400]
        ∧ (splitChunks (List.replicate 1000 'a') 400 200).map
            (fun S => retrieve_with_context_overlap S
              [⟨((List.replicate 1000 'a').drop 200).take 400, 1,
                List.replicate 1000 'a'⟩] 1 400 200)
          = some (some [(List.replicate 1000 'a').take 800])) :=
  ⟨by rw [List.length_replicate], C5_roundtrip_1000 (List.replicate 1000 'a')
    (by rw [List.length_replicate])⟩

end RagChunks
